import Mathlib

/-!
Shallow embedding of the protocol-dispatch encryption engine of
src/encrypt.go (package crypto): the EncryptManager with its three
protocol handlers (AES256-GCM, AES256-CFB with a password-derived key,
RSA with PKCS1v15 padding), its dispatch functions Encrypt and Decrypt,
and the GCM parameter plumbing.

Modelling conventions:
  - bytes are Nat values (inputs are constrained to be below 256 where
    byte-ness matters, e.g. for hex encoding);
  - an io.Reader is an Option (List Nat): none models a nil reader, and
    ioutil.ReadAll is total on the some case;
  - random draws (crypto/rand) are taken from an explicit tape argument,
    a List Nat consumed left to right; a tape too short models a failing
    random source;
  - Go runtime faults (out-of-range slice, nil dereference) are a
    distinct GoResult constructor, separate from returned errors;
  - the external cryptographic primitives that the Go file calls but
    does not define (the AES block cipher from aes.NewCipher, the GCM
    keystream and authentication tag, pbkdf2.Key, and the RSA trapdoor
    obtained through unmarshallRsaKey) are parameters of the embedding,
    collected in the Primitives structure.  Everything the Go file
    itself computes around them (envelope layout, PKCS1v15 padding and
    unpadding as performed by crypto/rsa, hex encoding and decoding as
    performed by encoding/hex, dispatch, parameter storage, guard
    checks) is translated concretely.
-/

/-- Result of a Go function call: a returned value, a returned error, or
a runtime panic. -/
inductive GoResult (α : Type) where
  | ok : α → GoResult α
  | err : String → GoResult α
  | panic : String → GoResult α
deriving DecidableEq

/-- Value of an ok result, or the default otherwise. -/
def GoResult.getD {α : Type} : GoResult α → α → α
  | .ok a, _ => a
  | .err _, d => d
  | .panic _, d => d

/-- Sequencing of Go results, used to state round trips. -/
def GoResult.bind {α β : Type} : GoResult α → (α → GoResult β) → GoResult β
  | .ok a, f => f a
  | .err m, _ => .err m
  | .panic m, _ => .panic m

/-- Pointwise XOR of two byte lists, truncated to the shorter one.  This
is how XORKeyStream combines a data segment with a keystream segment. -/
def zipXor : List Nat → List Nat → List Nat
  | [], _ => []
  | _, [] => []
  | a :: as, b :: bs => (a ^^^ b) :: zipXor as bs

/-- XOR of a byte list with a positional keystream, starting at index i.
Models a stream cipher applied to a whole buffer. -/
def xorStream (ks : Nat → Nat) : Nat → List Nat → List Nat
  | _, [] => []
  | i, b :: bs => (b ^^^ ks i) :: xorStream ks (i + 1) bs

/-- One CFB encryption pass (crypto/cipher NewCFBEncrypter followed by
XORKeyStream over the whole buffer): each 16-byte segment of the input
is XORed with the block encryption of the previous ciphertext segment,
seeded by the IV.  Fuel-indexed; the wrapper supplies fuel equal to the
input length, which always suffices. -/
def cfbEncAux (E : List Nat → List Nat) : Nat → List Nat → List Nat → List Nat
  | 0, _, _ => []
  | _, _, [] => []
  | fuel + 1, prev, b :: bs =>
      let c := zipXor ((b :: bs).take 16) (E prev)
      c ++ cfbEncAux E fuel c ((b :: bs).drop 16)

/-- One CFB decryption pass (crypto/cipher NewCFBDecrypter): each
16-byte ciphertext segment is XORed with the block encryption of the
previous ciphertext segment, seeded by the IV. -/
def cfbDecAux (E : List Nat → List Nat) : Nat → List Nat → List Nat → List Nat
  | 0, _, _ => []
  | _, _, [] => []
  | fuel + 1, prev, b :: bs =>
      zipXor ((b :: bs).take 16) (E prev)
        ++ cfbDecAux E fuel ((b :: bs).take 16) ((b :: bs).drop 16)

/-- CFB encryption of a whole buffer under block cipher E with the given
IV. -/
def cfbEnc (E : List Nat → List Nat) (iv bs : List Nat) : List Nat :=
  cfbEncAux E bs.length iv bs

/-- CFB decryption of a whole buffer under block cipher E with the given
IV. -/
def cfbDec (E : List Nat → List Nat) (iv bs : List Nat) : List Nat :=
  cfbDecAux E bs.length iv bs

/-- Lowercase hexadecimal digit of a value below 16, as used by
encoding/hex. -/
def toHexDigit (n : Nat) : Char :=
  (String.data "0123456789abcdef").getD n '0'

/-- hex.EncodeToString: two lowercase hex digits per byte. -/
def hexEncode : List Nat → List Char
  | [] => []
  | b :: bs => toHexDigit (b / 16) :: toHexDigit (b % 16) :: hexEncode bs

/-- Value of one hexadecimal digit accepted by encoding/hex. -/
def fromHexDigit (c : Char) : Option Nat :=
  if '0' ≤ c ∧ c ≤ '9' then some (c.toNat - Char.toNat '0')
  else if 'a' ≤ c ∧ c ≤ 'f' then some (c.toNat - Char.toNat 'a' + 10)
  else if 'A' ≤ c ∧ c ≤ 'F' then some (c.toNat - Char.toNat 'A' + 10)
  else none

/-- hex.DecodeString: fails on odd length or on a non-hex character. -/
def hexDecode : List Char → Option (List Nat)
  | [] => some []
  | [_] => none
  | c1 :: c2 :: cs =>
      match fromHexDigit c1, fromHexDigit c2, hexDecode cs with
      | some hi, some lo, some rest => some ((16 * hi + lo) :: rest)
      | _, _, _ => none

/-- Index of the first zero byte, as scanned by the PKCS1v15 unpadding
loop of crypto/rsa. -/
def firstZeroIdx : List Nat → Option Nat
  | [] => none
  | 0 :: _ => some 0
  | _ :: bs => (firstZeroIdx bs).map (· + 1)

/-- Protocol is a string type in the Go source. -/
def Protocol := String
deriving DecidableEq

/-- GCM selects AES256-GCM encryption and decryption. -/
def GCM : Protocol := "AES256-GCM"

/-- CFB selects AES256-CFB encryption and decryption. -/
def CFB : Protocol := "AES256-CFB"

/-- RSA selects RSA (IPFS key) encryption and decryption. -/
def RSA : Protocol := "RSA"

/-- keylen constant of the Go source. -/
def keylen : Nat := 32

/-- saltlen constant of the Go source. -/
def saltlen : Nat := 32

/-- nonceSize constant of the Go source. -/
def nonceSize : Nat := 24

/-- GCMDecryptParams: hex-encoded cipher key and nonce. -/
structure GCMDecryptParams where
  CipherKey : List Char
  Nonce : List Char
deriving DecidableEq

/-- EncryptManager: passphrase, optional GCM decryption parameters and
the configured protocol. -/
structure EncryptManager where
  passphrase : List Nat
  gcmDecryptParams : Option GCMDecryptParams
  protocol : Protocol
deriving DecidableEq

/-- RsaKeyPair, abstractly: the byte size of the public modulus together
with the raw public (encryption) and private (decryption) operations on
padded blocks.  The Go structure holds rsa.PrivateKey and rsa.PublicKey;
only these three observations of it are used by the source. -/
structure RsaKeyPair where
  size : Nat
  pubOp : List Nat → List Nat
  privOp : List Nat → List Nat

/-- External primitives called by the Go file but defined outside it:
the GCM keystream and tag (crypto/cipher GCM over AES), the raw AES
block encryption used by CFB mode (aes.NewCipher), the password-based
key derivation (pbkdf2.Key with SHA-512, 4096 iterations, 32-byte
output), and the deserialization of the passphrase into an RSA key pair
(unmarshallRsaKey, built from base64, libp2p and x509 parsing). -/
structure Primitives where
  ks : List Nat → List Nat → Nat → Nat
  tagF : List Nat → List Nat → List Nat → List Nat
  blockEnc : List Nat → List Nat → List Nat
  kdf : List Nat → List Nat → List Nat
  um : List Nat → Option RsaKeyPair

/-- NewEncryptManager: fresh manager with no GCM parameters. -/
def NewEncryptManager (passphrase : List Nat) (protocol : Protocol) : EncryptManager :=
  { passphrase := passphrase, gcmDecryptParams := none, protocol := protocol }

/-- WithGCM: switch the manager to the GCM protocol and install the
given decryption parameters. -/
def WithGCM (e : EncryptManager) (params : Option GCMDecryptParams) : EncryptManager :=
  { e with protocol := GCM, gcmDecryptParams := params }

/-- Error message of the nil-reader guards. -/
def invalidContentErr : String := "invalid content provided"

/-- Error produced when the random source cannot fill a buffer. -/
def shortRandErr : String := "unexpected EOF"

/-- Error of aes.NewCipher for a key that is not 16, 24 or 32 bytes. -/
def invalidKeySizeErr : String := "crypto/aes: invalid key size"

/-- Error of GCM Open on a short ciphertext or a failed tag check. -/
def authFailedErr : String := "cipher: message authentication failed"

/-- Panic message of GCM Open on a nonce of the wrong length. -/
def badNonceLenPanic : String := "crypto/cipher: incorrect nonce length given to GCM"

/-- Error of encoding/hex on invalid input. -/
def hexErr : String := "encoding/hex: invalid input"

/-- Error of crypto/rsa EncryptPKCS1v15 on an oversized message. -/
def msgTooLongErr : String := "crypto/rsa: message too long"

/-- Error of crypto/rsa DecryptPKCS1v15 on an invalid block. -/
def rsaDecErr : String := "crypto/rsa: decryption error"

/-- Error of encryptRSA on a plaintext larger than the modulus size. -/
def tooLargeErr : String := "Can't encrypt file larger than RSA pub key size"

/-- Error of unmarshallRsaKey on an unparsable passphrase. -/
def invalidParaphraseErr : String := "Invalid paraphrase is provided"

/-- Error of Encrypt on an unknown protocol. -/
def noProtocolErr : String := "no protocol specified"

/-- Error of Decrypt on an unknown protocol. -/
def invalidInvocationErr : String :=
  "invalid invocation, must be one of\nAES256-GCM: EncryptManager::WithGCM::Decrypt\nAES256-CFB: EncryptManager::WithCFB:Decrypt"

/-- Error of RetrieveGCMDecryptionParameters with no stored parameters. -/
def paramsEmptyErr : String := "gcm decryption parameters is empty"

/-- Error of decryptGCM with no parameters configured. -/
def paramsNullErr : String := "gcm decryption parameters is null"

/-- Error of the dead second GCM branch of Decrypt. -/
def noParamsGivenErr : String := "no gcm decryption parameters given"

/-- Panic message of an out-of-range Go slice expression. -/
def sliceBoundsPanic : String := "runtime error: slice bounds out of range"

/-- Panic message of calling through a nil io.Reader. -/
def nilDerefPanic : String := "runtime error: invalid memory address or nil pointer dereference"

/-- Seal of crypto/cipher GCM: ciphertext body (plaintext XOR keystream)
followed by the authentication tag over the body. -/
def gcmSeal (P : Primitives) (key nonce pt : List Nat) : List Nat :=
  let body := xorStream (P.ks key nonce) 0 pt
  body ++ P.tagF key nonce body

/-- Open of crypto/cipher GCM: panic on a nonce of the wrong length,
error on a ciphertext shorter than the tag, recompute and compare the
tag, and on success XOR the body back to the plaintext. -/
def gcmOpen (P : Primitives) (key nonce ct : List Nat) : GoResult (List Nat) :=
  if nonce.length ≠ nonceSize then .panic badNonceLenPanic
  else if ct.length < 16 then .err authFailedErr
  else
    let body := ct.take (ct.length - 16)
    let tag := ct.drop (ct.length - 16)
    if tag = P.tagF key nonce body then .ok (xorStream (P.ks key nonce) 0 body)
    else .err authFailedErr

/-- encryptGCM: nil-reader guard, draw a 32-byte key and a 24-byte
nonce from the random tape, build the AES-GCM AEAD with explicit nonce
size 24, read the input and seal it.  Returns (ciphertext, nonce, key)
like the Go function. -/
def encryptGCM (P : Primitives) (tape : List Nat) (r : Option (List Nat)) :
    GoResult (List Nat × List Nat × List Nat) :=
  match r with
  | none => .err invalidContentErr
  | some data =>
      if tape.length < 56 then .err shortRandErr
      else
        let cipherKeyBytes := tape.take 32
        let nonce := (tape.drop 32).take 24
        .ok (gcmSeal P cipherKeyBytes nonce data, nonce, cipherKeyBytes)

/-- encryptCFB: nil-reader guard, draw a 32-byte salt, derive the key
with pbkdf2, build the AES cipher (whose constructor checks the key
length), read the input, draw a 16-byte IV, CFB-encrypt, and append the
salt to the end. -/
def encryptCFB (P : Primitives) (pass tape : List Nat) (r : Option (List Nat)) :
    GoResult (List Nat) :=
  match r with
  | none => .err invalidContentErr
  | some b =>
      if tape.length < 32 then .err shortRandErr
      else
        let salt := tape.take 32
        let key := P.kdf pass salt
        if ¬(key.length = 16 ∨ key.length = 24 ∨ key.length = 32) then .err invalidKeySizeErr
        else if tape.length < 48 then .err shortRandErr
        else
          let iv := (tape.drop 32).take 16
          .ok (iv ++ cfbEnc (P.blockEnc key) iv b ++ salt)

/-- EncryptPKCS1v15 of crypto/rsa: reject messages longer than the
modulus size minus 11 (the comparison is on Go ints), draw the nonzero
random padding bytes, build the padded block 00 02 PS 00 msg and apply
the public operation. -/
def encryptPKCS1v15 (key : RsaKeyPair) (tape msg : List Nat) : GoResult (List Nat) :=
  if (msg.length : Int) > (key.size : Int) - 11 then .err msgTooLongErr
  else
    let psLen := key.size - 3 - msg.length
    let ps := ((tape.filter (fun b => b ≠ 0)).take psLen)
    if ps.length < psLen then .err shortRandErr
    else .ok (key.pubOp (0 :: 2 :: (ps ++ 0 :: msg)))

/-- DecryptPKCS1v15 of crypto/rsa: apply the private operation, check
the 00 02 header, scan for the first zero byte after the header,
require at least 8 padding bytes, and return everything after the
separator. -/
def decryptPKCS1v15 (key : RsaKeyPair) (c : List Nat) : GoResult (List Nat) :=
  if key.size < 11 then .err rsaDecErr
  else
    let em := key.privOp c
    match firstZeroIdx (em.drop 2) with
    | none => .err rsaDecErr
    | some j =>
        if em.getD 0 1 = 0 ∧ em.getD 1 0 = 2 ∧ 8 ≤ j then .ok (em.drop (j + 3))
        else .err rsaDecErr

/-- encryptRSA: nil-reader guard, read the input, deserialize the key
pair from the passphrase, reject inputs longer than the public modulus
size, then call EncryptPKCS1v15. -/
def encryptRSA (P : Primitives) (pass tape : List Nat) (r : Option (List Nat)) :
    GoResult (List Nat) :=
  match r with
  | none => .err invalidContentErr
  | some b =>
      match P.um pass with
      | none => .err invalidParaphraseErr
      | some rsaKeyPair =>
          if rsaKeyPair.size < b.length then .err tooLargeErr
          else encryptPKCS1v15 rsaKeyPair tape b

/-- decryptRSA: nil-reader guard, read the input, deserialize the key
pair, then call DecryptPKCS1v15. -/
def decryptRSA (P : Primitives) (pass : List Nat) (r : Option (List Nat)) :
    GoResult (List Nat) :=
  match r with
  | none => .err invalidContentErr
  | some b =>
      match P.um pass with
      | none => .err invalidParaphraseErr
      | some rsaKeyPair => decryptPKCS1v15 rsaKeyPair b

/-- decryptGCM: parameter guard, hex-decode key and nonce, build the
AES cipher (checking the key length) and the AEAD, read the input (a
nil reader is dereferenced here without a guard) and open it. -/
def decryptGCM (P : Primitives) (params : Option GCMDecryptParams)
    (r : Option (List Nat)) : GoResult (List Nat) :=
  match params with
  | none => .err paramsNullErr
  | some p =>
      match hexDecode p.CipherKey with
      | none => .err hexErr
      | some decodedKey =>
          match hexDecode p.Nonce with
          | none => .err hexErr
          | some decodedNonce =>
              if ¬(decodedKey.length = 16 ∨ decodedKey.length = 24 ∨ decodedKey.length = 32)
              then .err invalidKeySizeErr
              else
                match r with
                | none => .panic nilDerefPanic
                | some encryptedData => gcmOpen P decodedKey decodedNonce encryptedData

/-- decryptCFB: nil-reader guard, read the input, slice the trailing
32-byte salt and the leading 16-byte IV without any length check (an
input shorter than 48 bytes makes one of the two slice expressions
panic), re-derive the key, and CFB-decrypt the middle. -/
def decryptCFB (P : Primitives) (pass : List Nat) (r : Option (List Nat)) :
    GoResult (List Nat) :=
  match r with
  | none => .err invalidContentErr
  | some raw =>
      if raw.length < saltlen then .panic sliceBoundsPanic
      else
        let salt := raw.drop (raw.length - saltlen)
        let raw2 := raw.take (raw.length - saltlen)
        let key := P.kdf pass salt
        if ¬(key.length = 16 ∨ key.length = 24 ∨ key.length = 32) then .err invalidKeySizeErr
        else if raw2.length < 16 then .panic sliceBoundsPanic
        else .ok (cfbDec (P.blockEnc key) (raw2.take 16) (raw2.drop 16))

/-- Encrypt: dispatch on the configured protocol.  The GCM branch
stores the hex-encoded key and nonce into the manager after a
successful call; the result is paired with the updated manager to model
that mutation. -/
def Encrypt (P : Primitives) (e : EncryptManager) (tape : List Nat)
    (r : Option (List Nat)) : GoResult (List Nat) × EncryptManager :=
  if e.protocol = GCM then
    match encryptGCM P tape r with
    | .ok (encryptedData, nonce, cipherKey) =>
        (.ok encryptedData,
         { e with gcmDecryptParams :=
             (some ⟨hexEncode cipherKey, hexEncode nonce⟩) })
    | .err m => (.err m, e)
    | .panic m => (.panic m, e)
  else if e.protocol = CFB then (encryptCFB P e.passphrase tape r, e)
  else if e.protocol = RSA then (encryptRSA P e.passphrase tape r, e)
  else (.err noProtocolErr, e)

/-- Byte view of the formatted parameter text
"Nonce:\t%s\nCipherKey:\t%s" handed to the CFB encryptor by
RetrieveGCMDecryptionParameters. -/
def formatParams (p : GCMDecryptParams) : List Nat :=
  (("Nonce:\t".data ++ p.Nonce ++ "\nCipherKey:\t".data ++ p.CipherKey).map Char.toNat)

/-- RetrieveGCMDecryptionParameters: error when no parameters are
stored, otherwise CFB-encrypt the formatted nonce/key text under the
passphrase. -/
def RetrieveGCMDecryptionParameters (P : Primitives) (e : EncryptManager)
    (tape : List Nat) : GoResult (List Nat) :=
  match e.gcmDecryptParams with
  | none => .err paramsEmptyErr
  | some p => encryptCFB P e.passphrase tape (some (formatParams p))

/-- Decrypt: dispatch on the configured protocol, with the duplicate
second GCM case of the Go switch preserved (Go switch cases on
non-constant values are tested in order, so the second one is dead). -/
def Decrypt (P : Primitives) (e : EncryptManager) (r : Option (List Nat)) :
    GoResult (List Nat) :=
  if e.protocol = CFB then decryptCFB P e.passphrase r
  else if e.protocol = GCM then decryptGCM P e.gcmDecryptParams r
  else if e.protocol = GCM then
    match e.gcmDecryptParams with
    | none => .err noParamsGivenErr
    | some _ => decryptGCM P e.gcmDecryptParams r
  else if e.protocol = RSA then decryptRSA P e.passphrase r
  else .err invalidInvocationErr

/-- Modelled from the spec, for the refinement claim about the dead
dispatch branch: the same Decrypt dispatch with a single GCM case
calling decryptGCM. -/
def DecryptSingleGCM (P : Primitives) (e : EncryptManager) (r : Option (List Nat)) :
    GoResult (List Nat) :=
  if e.protocol = CFB then decryptCFB P e.passphrase r
  else if e.protocol = GCM then decryptGCM P e.gcmDecryptParams r
  else if e.protocol = RSA then decryptRSA P e.passphrase r
  else .err invalidInvocationErr

/-- Concrete stand-in for the AES block encryption: a fixed-length
16-byte output for every key and block. -/
def testBlockEnc (key b : List Nat) : List Nat :=
  ((b.map (fun x => x + key.length)) ++ List.replicate 16 7).take 16

/-- Concrete stand-in for the GCM keystream. -/
def testKs (key nonce : List Nat) (i : Nat) : Nat :=
  (key.getD 0 0 + nonce.getD 0 0 + i) % 256

/-- Concrete stand-in for the GCM authentication tag. -/
def testTagF (key nonce body : List Nat) : List Nat :=
  List.replicate 15 9 ++ [(key.length + nonce.length + body.length) % 256]

/-- Concrete stand-in for pbkdf2.Key with a 32-byte output. -/
def testKdf (pass salt : List Nat) : List Nat :=
  ((pass ++ salt).map (fun x => x % 256) ++ List.replicate 32 3).take 32

/-- Concrete stand-in for an RSA key pair of modulus size 32 whose raw
public and private operations are mutually inverse. -/
def testRsaKeyPair : RsaKeyPair :=
  { size := 32
  , pubOp := fun em => em.map (fun x => x + 1)
  , privOp := fun em => em.map (fun x => x - 1) }

/-- Concrete stand-in for unmarshallRsaKey: every passphrase parses to
the test key pair. -/
def testUm (_pass : List Nat) : Option RsaKeyPair :=
  some testRsaKeyPair

/-- The concrete primitive bundle used by the witnesses. -/
def testPrims : Primitives :=
  { ks := testKs, tagF := testTagF, blockEnc := testBlockEnc
  , kdf := testKdf, um := testUm }

theorem zipXor_length (a b : List Nat) : (zipXor a b).length = min a.length b.length := by
  induction a generalizing b with
  | nil => simp [zipXor]
  | cons x xs ih =>
      cases b with
      | nil => simp [zipXor]
      | cons y ys => simp [zipXor, ih]; omega

theorem zipXor_cancel (a b : List Nat) (h : a.length ≤ b.length) :
    zipXor (zipXor a b) b = a := by
  induction a generalizing b with
  | nil => cases b <;> simp [zipXor]
  | cons x xs ih =>
      cases b with
      | nil => simp at h
      | cons y ys =>
          simp [zipXor] at h ⊢
          exact ⟨Nat.xor_cancel_right y x, ih ys h⟩

theorem xorStream_length (ks : Nat → Nat) (i : Nat) (l : List Nat) :
    (xorStream ks i l).length = l.length := by
  induction l generalizing i with
  | nil => simp [xorStream]
  | cons x xs ih => simp [xorStream, ih]

theorem xorStream_xorStream (ks : Nat → Nat) (i : Nat) (l : List Nat) :
    xorStream ks i (xorStream ks i l) = l := by
  induction l generalizing i with
  | nil => simp [xorStream]
  | cons x xs ih => simp [xorStream, ih, Nat.xor_cancel_right]

theorem take_len_append {α : Type} (l s : List α) : (l ++ s).take l.length = l := by
  induction l with
  | nil => simp
  | cons x xs ih => simp [ih]

theorem drop_len_append {α : Type} (l s : List α) : (l ++ s).drop l.length = s := by
  induction l with
  | nil => simp
  | cons x xs ih => simp [ih]

theorem drop_len_add_append {α : Type} (l s : List α) (k : Nat) :
    (l ++ s).drop (l.length + k) = s.drop k := by
  induction l with
  | nil => simp
  | cons x xs ih =>
      simp only [List.cons_append, List.length_cons, Nat.succ_add, List.drop_succ_cons]
      exact ih

theorem cfbEncAux_nil (E : List Nat → List Nat) (f : Nat) (p : List Nat) :
    cfbEncAux E f p [] = [] := by
  cases f <;> rfl

theorem cfbDecAux_nil (E : List Nat → List Nat) (f : Nat) (p : List Nat) :
    cfbDecAux E f p [] = [] := by
  cases f <;> rfl

theorem cfbEncAux_length (E : List Nat → List Nat) (hE : ∀ x, (E x).length = 16) :
    ∀ (f : Nat) (p bs : List Nat), bs.length ≤ f → (cfbEncAux E f p bs).length = bs.length := by
  intro f
  induction f with
  | zero =>
      intro p bs h
      have : bs = [] := List.eq_nil_of_length_eq_zero (Nat.le_zero.mp h)
      simp [this, cfbEncAux]
  | succ n ih =>
      intro p bs h
      cases bs with
      | nil => simp [cfbEncAux]
      | cons b bs2 =>
          have hdrop : ((b :: bs2).drop 16).length ≤ n := by
            simp [List.length_drop] at *
            omega
          simp only [cfbEncAux, List.length_append]
          rw [ih _ _ hdrop, zipXor_length, hE]
          simp [List.length_take, List.length_drop]
          omega

theorem cfbDecAux_cfbEncAux (E : List Nat → List Nat) (hE : ∀ x, (E x).length = 16) :
    ∀ (f : Nat) (p bs : List Nat), bs.length ≤ f →
      cfbDecAux E f p (cfbEncAux E f p bs) = bs := by
  intro f
  induction f with
  | zero =>
      intro p bs h
      have : bs = [] := List.eq_nil_of_length_eq_zero (Nat.le_zero.mp h)
      simp [this, cfbEncAux, cfbDecAux]
  | succ n ih =>
      intro p bs h
      cases bs with
      | nil => simp [cfbEncAux, cfbDecAux]
      | cons b bs2 =>
          set t := (b :: bs2).take 16 with ht
          set c := zipXor t (E p) with hc
          have hclen : c.length = t.length := by
            rw [hc, zipXor_length, hE, ht]
            simp [List.length_take]
          have htlen : t.length ≤ 16 := by simp [ht, List.length_take]
          have henc : cfbEncAux E (n + 1) p (b :: bs2)
              = c ++ cfbEncAux E n c ((b :: bs2).drop 16) := rfl
          rw [henc]
          by_cases hlong : 16 ≤ (b :: bs2).length
          · have hclen16 : c.length = 16 := by
              rw [hclen, ht, List.length_take]
              omega
            have htake : (c ++ cfbEncAux E n c ((b :: bs2).drop 16)).take 16 = c := by
              have := take_len_append c (cfbEncAux E n c ((b :: bs2).drop 16))
              rwa [hclen16] at this
            have hdrop2 : (c ++ cfbEncAux E n c ((b :: bs2).drop 16)).drop 16
                = cfbEncAux E n c ((b :: bs2).drop 16) := by
              have := drop_len_append c (cfbEncAux E n c ((b :: bs2).drop 16))
              rwa [hclen16] at this
            obtain ⟨c0, crest, hc0⟩ : ∃ c0 crest, c = c0 :: crest := by
              cases hcc : c with
              | nil => rw [hcc] at hclen16; simp at hclen16
              | cons c0 cr => exact ⟨c0, cr, rfl⟩
            have hdlen : ((b :: bs2).drop 16).length ≤ n := by
              simp [List.length_drop] at *
              omega
            rw [hc0]
            have hdec : cfbDecAux E (n + 1) p
                ((c0 :: crest) ++ cfbEncAux E n c ((b :: bs2).drop 16))
                = zipXor (((c0 :: crest) ++ cfbEncAux E n c ((b :: bs2).drop 16)).take 16) (E p)
                  ++ cfbDecAux E n (((c0 :: crest) ++ cfbEncAux E n c ((b :: bs2).drop 16)).take 16)
                      (((c0 :: crest) ++ cfbEncAux E n c ((b :: bs2).drop 16)).drop 16) := by
              cases hcc2 : cfbEncAux E n c ((b :: bs2).drop 16) <;> rfl
            rw [← hc0] at hdec ⊢
            rw [hdec, htake, hdrop2, hc]
            rw [zipXor_cancel t (E p) (by rw [hE]; exact htlen)]
            rw [ih c ((b :: bs2).drop 16) hdlen]
            exact List.take_append_drop 16 (b :: bs2)
          · have hshort : (b :: bs2).length < 16 := by omega
            have htb : t = b :: bs2 := by
              rw [ht]
              exact List.take_of_length_le (by omega)
            have hdnil : (b :: bs2).drop 16 = [] := by
              apply List.drop_eq_nil_of_le
              omega
            rw [hdnil, cfbEncAux_nil, List.append_nil]
            obtain ⟨c0, crest, hc0⟩ : ∃ c0 crest, c = c0 :: crest := by
              cases hcc : c with
              | nil =>
                  rw [hcc] at hclen
                  rw [htb] at hclen
                  simp at hclen
              | cons c0 cr => exact ⟨c0, cr, rfl⟩
            have hclen2 : c.length < 16 := by
              rw [hclen, htb]
              omega
            have htakec : c.take 16 = c := List.take_of_length_le (by omega)
            have hdropc : c.drop 16 = [] := List.drop_eq_nil_of_le (by omega)
            rw [hc0]
            have hdec : cfbDecAux E (n + 1) p (c0 :: crest)
                = zipXor ((c0 :: crest).take 16) (E p)
                  ++ cfbDecAux E n ((c0 :: crest).take 16) ((c0 :: crest).drop 16) := rfl
            rw [hdec, ← hc0, htakec, hdropc, cfbDecAux_nil, List.append_nil, hc]
            rw [zipXor_cancel t (E p) (by rw [hE]; exact htlen)]
            exact htb

theorem cfbEnc_length (E : List Nat → List Nat) (hE : ∀ x, (E x).length = 16)
    (iv bs : List Nat) : (cfbEnc E iv bs).length = bs.length :=
  cfbEncAux_length E hE bs.length iv bs (Nat.le_refl _)

theorem cfbDec_cfbEnc (E : List Nat → List Nat) (hE : ∀ x, (E x).length = 16)
    (iv bs : List Nat) : cfbDec E iv (cfbEnc E iv bs) = bs := by
  unfold cfbDec cfbEnc
  rw [cfbEncAux_length E hE bs.length iv bs (Nat.le_refl _)]
  exact cfbDecAux_cfbEncAux E hE bs.length iv bs (Nat.le_refl _)

theorem fromHexDigit_toHexDigit : ∀ n < 16, fromHexDigit (toHexDigit n) = some n := by
  decide

theorem hexDecode_hexEncode (bs : List Nat) (h : ∀ b ∈ bs, b < 256) :
    hexDecode (hexEncode bs) = some bs := by
  induction bs with
  | nil => rfl
  | cons b bs2 ih =>
      have hb : b < 256 := h b (List.mem_cons_self b bs2)
      have hdiv : b / 16 < 16 := by omega
      have hmod : b % 16 < 16 := by omega
      have ih2 := ih (fun x hx => h x (List.mem_cons_of_mem b hx))
      have hb2 : 16 * (b / 16) + b % 16 = b := by omega
      simp only [hexEncode, hexDecode]
      rw [fromHexDigit_toHexDigit _ hdiv, fromHexDigit_toHexDigit _ hmod, ih2]
      simp [hb2]

theorem hexEncode_length (bs : List Nat) : (hexEncode bs).length = 2 * bs.length := by
  induction bs with
  | nil => rfl
  | cons b bs2 ih => simp [hexEncode, ih]; omega

theorem firstZeroIdx_append (ps msg : List Nat) (h : ∀ x ∈ ps, x ≠ 0) :
    firstZeroIdx (ps ++ 0 :: msg) = some ps.length := by
  induction ps with
  | nil => rfl
  | cons p ps2 ih =>
      have hp : p ≠ 0 := h p (List.mem_cons_self p ps2)
      have ih2 := ih (fun x hx => h x (List.mem_cons_of_mem p hx))
      cases p with
      | zero => exact absurd rfl hp
      | succ k =>
          have hstep : firstZeroIdx ((k + 1) :: (ps2 ++ 0 :: msg))
              = (firstZeroIdx (ps2 ++ 0 :: msg)).map (· + 1) := rfl
          rw [List.cons_append, hstep, ih2]
          rfl

theorem gcmOpen_gcmSeal (P : Primitives)
    (htag : ∀ k n b, (P.tagF k n b).length = 16)
    (key nonce pt : List Nat) (hn : nonce.length = nonceSize) :
    gcmOpen P key nonce (gcmSeal P key nonce pt) = .ok pt := by
  unfold gcmSeal gcmOpen
  set body := xorStream (P.ks key nonce) 0 pt with hbody
  have hbl : body.length = pt.length := xorStream_length _ _ _
  have hlen : (body ++ P.tagF key nonce body).length = body.length + 16 := by
    simp [List.length_append, htag]
  rw [hn]
  simp only [ne_eq, not_true_eq_false, if_false, ite_false]
  have h16 : ¬(body ++ P.tagF key nonce body).length < 16 := by omega
  rw [if_neg (by simpa using h16)]
  have hsub : (body ++ P.tagF key nonce body).length - 16 = body.length := by omega
  rw [hsub, take_len_append, drop_len_append]
  rw [if_pos rfl, hbody, xorStream_xorStream]

theorem drop_ps_block (ps msg : List Nat) :
    (0 :: 2 :: (ps ++ 0 :: msg)).drop (ps.length + 3) = msg := by
  rw [show ps.length + 3 = ps.length + 1 + 1 + 1 by omega]
  rw [List.drop_succ_cons, List.drop_succ_cons]
  rw [drop_len_add_append ps (0 :: msg) 1]
  rfl

theorem decryptPKCS1v15_ok (key : RsaKeyPair) (c ps msg : List Nat)
    (h11 : 11 ≤ key.size)
    (hpriv2 : key.privOp c = 0 :: 2 :: (ps ++ 0 :: msg))
    (hnz : ∀ x ∈ ps, x ≠ 0) (h8 : 8 ≤ ps.length) :
    decryptPKCS1v15 key c = .ok msg := by
  unfold decryptPKCS1v15
  rw [if_neg (by omega), hpriv2]
  simp only [List.drop_succ_cons, List.drop_zero, firstZeroIdx_append ps msg hnz]
  simp only [List.getD_cons_zero, List.getD_cons_succ]
  rw [if_pos (by exact ⟨trivial, trivial, h8⟩)]
  rw [drop_len_add_append ps (0 :: msg) 1]
  rfl

theorem decryptPKCS1v15_encryptPKCS1v15 (key : RsaKeyPair) (tape msg : List Nat)
    (hpriv : ∀ em, em.length = key.size → key.privOp (key.pubOp em) = em)
    (hsize : msg.length + 11 ≤ key.size)
    (hps : key.size - 3 - msg.length ≤ ((tape.filter (fun b => b ≠ 0)).length)) :
    GoResult.bind (encryptPKCS1v15 key tape msg) (fun c => decryptPKCS1v15 key c)
      = .ok msg := by
  have htakelen : ((tape.filter (fun b => b ≠ 0)).take (key.size - 3 - msg.length)).length
      = key.size - 3 - msg.length := by
    rw [List.length_take]
    omega
  have henc : encryptPKCS1v15 key tape msg
      = .ok (key.pubOp (0 :: 2 ::
          (((tape.filter (fun b => b ≠ 0)).take (key.size - 3 - msg.length)) ++ 0 :: msg))) := by
    unfold encryptPKCS1v15
    rw [if_neg (by simp only [not_lt]; omega)]
    rw [if_neg (by rw [htakelen]; omega)]
  rw [henc]
  show decryptPKCS1v15 key (key.pubOp (0 :: 2 ::
      (((tape.filter (fun b => b ≠ 0)).take (key.size - 3 - msg.length)) ++ 0 :: msg)))
    = .ok msg
  set ps := (tape.filter (fun b => b ≠ 0)).take (key.size - 3 - msg.length) with hpsdef
  have hpslen : ps.length = key.size - 3 - msg.length := htakelen
  have hnz : ∀ x ∈ ps, x ≠ 0 := by
    intro x hx
    have hxf : x ∈ tape.filter (fun b => b ≠ 0) := List.mem_of_mem_take hx
    have := List.of_mem_filter hxf
    simpa using this
  have hemlen : (0 :: 2 :: (ps ++ 0 :: msg)).length = key.size := by
    simp [List.length_append, hpslen]
    omega
  exact decryptPKCS1v15_ok key _ ps msg (by omega) (hpriv _ hemlen) hnz (by omega)

theorem encryptCFB_ok (P : Primitives) (pass tape b : List Nat)
    (hkdf : ∀ pw s, (P.kdf pw s).length = 32)
    (htape : 48 ≤ tape.length) :
    encryptCFB P pass tape (some b)
      = .ok ((tape.drop 32).take 16
          ++ cfbEnc (P.blockEnc (P.kdf pass (tape.take 32))) ((tape.drop 32).take 16) b
          ++ tape.take 32) := by
  unfold encryptCFB
  simp only []
  rw [if_neg (by omega)]
  rw [if_neg (by simp [hkdf])]
  rw [if_neg (by omega)]

theorem decryptCFB_encryptCFB (P : Primitives) (pass tape b : List Nat)
    (hE : ∀ k x, (P.blockEnc k x).length = 16)
    (hkdf : ∀ pw s, (P.kdf pw s).length = 32)
    (htape : 48 ≤ tape.length) :
    GoResult.bind (encryptCFB P pass tape (some b))
      (fun ct => decryptCFB P pass (some ct)) = .ok b := by
  rw [encryptCFB_ok P pass tape b hkdf htape]
  set salt := tape.take 32 with hsaltdef
  set iv := (tape.drop 32).take 16 with hivdef
  set key := P.kdf pass salt with hkeydef
  set ct := cfbEnc (P.blockEnc key) iv b with hctdef
  have hsaltlen : salt.length = 32 := by
    rw [hsaltdef, List.length_take]
    omega
  have hivlen : iv.length = 16 := by
    rw [hivdef, List.length_take, List.length_drop]
    omega
  have hctlen : ct.length = b.length := cfbEnc_length _ (hE key) iv b
  have hrawlen : (iv ++ ct ++ salt).length = 16 + b.length + 32 := by
    simp [List.length_append, hsaltlen, hivlen, hctlen]
    omega
  show decryptCFB P pass (some (iv ++ ct ++ salt)) = .ok b
  unfold decryptCFB
  simp only []
  rw [if_neg (by rw [hrawlen]; unfold saltlen; omega)]
  have hsub : (iv ++ ct ++ salt).length - saltlen = (iv ++ ct).length := by
    rw [hrawlen]
    simp [List.length_append, hivlen, hctlen]
    unfold saltlen
    omega
  rw [hsub, drop_len_append, take_len_append]
  rw [if_neg (by simp [hkdf])]
  rw [if_neg (by simp [List.length_append, hivlen, hctlen])]
  have htk : (iv ++ ct).take 16 = iv := by
    rw [show (16 : Nat) = iv.length from hivlen.symm]
    exact take_len_append iv ct
  have hdr : (iv ++ ct).drop 16 = ct := by
    rw [show (16 : Nat) = iv.length from hivlen.symm]
    exact drop_len_append iv ct
  rw [htk, hdr, hctdef, cfbDec_cfbEnc _ (hE key) iv b]

theorem testBlockEnc_length (k x : List Nat) : (testBlockEnc k x).length = 16 := by
  simp [testBlockEnc, List.length_take]

theorem testKdf_length (p s : List Nat) : (testKdf p s).length = 32 := by
  simp [testKdf, List.length_take]
  omega

theorem testTagF_length (k n b : List Nat) : (testTagF k n b).length = 16 := rfl

theorem encryptGCM_ok (P : Primitives) (tape data : List Nat) (htape : 56 ≤ tape.length) :
    encryptGCM P tape (some data)
      = .ok (gcmSeal P (tape.take 32) ((tape.drop 32).take 24) data,
             (tape.drop 32).take 24, tape.take 32) := by
  unfold encryptGCM
  simp only []
  rw [if_neg (by omega)]

theorem decryptGCM_gcmSeal (P : Primitives)
    (htag : ∀ k n b, (P.tagF k n b).length = 16)
    (key nonce pt : List Nat)
    (hkey : ∀ b ∈ key, b < 256) (hnonce : ∀ b ∈ nonce, b < 256)
    (hkeylen : key.length = 32) (hnoncelen : nonce.length = 24) :
    decryptGCM P (some ⟨hexEncode key, hexEncode nonce⟩) (some (gcmSeal P key nonce pt))
      = .ok pt := by
  unfold decryptGCM
  simp only []
  rw [hexDecode_hexEncode key hkey]
  simp only []
  rw [hexDecode_hexEncode nonce hnonce]
  simp only []
  rw [if_neg (by simp [hkeylen])]
  exact gcmOpen_gcmSeal P htag key nonce pt (by rw [hnoncelen]; rfl)

theorem Decrypt_Encrypt_GCM (P : Primitives)
    (htag : ∀ k n b, (P.tagF k n b).length = 16)
    (e : EncryptManager) (tape p : List Nat)
    (hproto : e.protocol = GCM) (htape : 56 ≤ tape.length)
    (hbytes : ∀ b ∈ tape, b < 256) :
    GoResult.bind (Encrypt P e tape (some p)).1
      (fun ct => Decrypt P (Encrypt P e tape (some p)).2 (some ct)) = .ok p := by
  have hkey : ∀ b ∈ tape.take 32, b < 256 :=
    fun b hb => hbytes b (List.take_subset 32 tape hb)
  have hnonce : ∀ b ∈ (tape.drop 32).take 24, b < 256 :=
    fun b hb => hbytes b (List.drop_subset 32 tape (List.take_subset 24 (tape.drop 32) hb))
  have hkeylen : (tape.take 32).length = 32 := by
    rw [List.length_take]
    omega
  have hnoncelen : ((tape.drop 32).take 24).length = 24 := by
    rw [List.length_take, List.length_drop]
    omega
  have henc : Encrypt P e tape (some p)
      = (.ok (gcmSeal P (tape.take 32) ((tape.drop 32).take 24) p),
         { e with gcmDecryptParams :=
             (some ⟨hexEncode (tape.take 32), hexEncode ((tape.drop 32).take 24)⟩) }) := by
    unfold Encrypt
    rw [if_pos hproto, encryptGCM_ok P tape p htape]
  rw [henc]
  show Decrypt P
      { e with gcmDecryptParams :=
          (some ⟨hexEncode (tape.take 32), hexEncode ((tape.drop 32).take 24)⟩) }
      (some (gcmSeal P (tape.take 32) ((tape.drop 32).take 24) p)) = .ok p
  unfold Decrypt
  simp only []
  rw [hproto]
  rw [if_neg (by decide), if_pos rfl]
  exact decryptGCM_gcmSeal P htag _ _ p hkey hnonce hkeylen hnoncelen

theorem decryptRSA_encryptRSA (P : Primitives) (pass tape p : List Nat)
    (key : RsaKeyPair) (hum : P.um pass = some key)
    (hpriv : ∀ em, em.length = key.size → key.privOp (key.pubOp em) = em)
    (hsize : p.length + 11 ≤ key.size)
    (hps : key.size - 3 - p.length ≤ (tape.filter (fun b => b ≠ 0)).length) :
    GoResult.bind (encryptRSA P pass tape (some p))
      (fun ct => decryptRSA P pass (some ct)) = .ok p := by
  have hdec : ∀ ct, decryptRSA P pass (some ct) = decryptPKCS1v15 key ct := by
    intro ct
    unfold decryptRSA
    simp only []
    rw [hum]
  have henc : encryptRSA P pass tape (some p) = encryptPKCS1v15 key tape p := by
    unfold encryptRSA
    simp only []
    rw [hum]
    simp only []
    rw [if_neg (by omega)]
  rw [henc]
  simp only [hdec]
  exact decryptPKCS1v15_encryptPKCS1v15 key tape p hpriv hsize hps

theorem Encrypt_CFB_eq (P : Primitives) (e : EncryptManager) (h : e.protocol = CFB)
    (tape : List Nat) (r : Option (List Nat)) :
    Encrypt P e tape r = (encryptCFB P e.passphrase tape r, e) := by
  unfold Encrypt
  rw [h]
  rw [if_neg (by decide), if_pos rfl]

theorem Encrypt_RSA_eq (P : Primitives) (e : EncryptManager) (h : e.protocol = RSA)
    (tape : List Nat) (r : Option (List Nat)) :
    Encrypt P e tape r = (encryptRSA P e.passphrase tape r, e) := by
  unfold Encrypt
  rw [h]
  rw [if_neg (by decide), if_neg (by decide), if_pos rfl]

theorem Decrypt_CFB_eq (P : Primitives) (e : EncryptManager) (h : e.protocol = CFB)
    (r : Option (List Nat)) :
    Decrypt P e r = decryptCFB P e.passphrase r := by
  unfold Decrypt
  rw [h]
  rw [if_pos rfl]

theorem Decrypt_RSA_eq (P : Primitives) (e : EncryptManager) (h : e.protocol = RSA)
    (r : Option (List Nat)) :
    Decrypt P e r = decryptRSA P e.passphrase r := by
  unfold Decrypt
  rw [h]
  rw [if_neg (by decide), if_neg (by decide), if_neg (by decide), if_pos rfl]

/-- Claim C3: for every byte sequence p (including the empty sequence)
and each of the three protocols GCM, CFB and RSA, encrypting p through
the dispatcher with fresh randomness and then decrypting the result
with the matching configuration and parameters returns exactly p.  The
external primitives are assumed well formed: the block cipher, tag and
kdf have their fixed output lengths, and for RSA the passphrase
deserializes to a valid key pair (private operation inverts the public
one) with p within the size limit accepted by PKCS1v15. -/
theorem C3_round_trip (P : Primitives) (tape p : List Nat)
    (eG eC eR : EncryptManager) (key : RsaKeyPair)
    (hE : ∀ k x, (P.blockEnc k x).length = 16)
    (hkdf : ∀ pw s, (P.kdf pw s).length = 32)
    (htag : ∀ k n b, (P.tagF k n b).length = 16)
    (htape : 56 ≤ tape.length) (hbytes : ∀ b ∈ tape, b < 256)
    (hG : eG.protocol = GCM) (hC : eC.protocol = CFB) (hR : eR.protocol = RSA)
    (hum : P.um eR.passphrase = some key)
    (hpriv : ∀ em, em.length = key.size → key.privOp (key.pubOp em) = em)
    (hsize : p.length + 11 ≤ key.size)
    (hps : key.size - 3 - p.length ≤ (tape.filter (fun b => b ≠ 0)).length) :
    GoResult.bind (Encrypt P eC tape (some p)).1
        (fun ct => Decrypt P (Encrypt P eC tape (some p)).2 (some ct)) = .ok p
    ∧ GoResult.bind (Encrypt P eG tape (some p)).1
        (fun ct => Decrypt P (Encrypt P eG tape (some p)).2 (some ct)) = .ok p
    ∧ GoResult.bind (Encrypt P eR tape (some p)).1
        (fun ct => Decrypt P (Encrypt P eR tape (some p)).2 (some ct)) = .ok p := by
  refine ⟨?_, ?_, ?_⟩
  · rw [Encrypt_CFB_eq P eC hC tape (some p)]
    simp only [Decrypt_CFB_eq P eC hC]
    exact decryptCFB_encryptCFB P eC.passphrase tape p hE hkdf (by omega)
  · exact Decrypt_Encrypt_GCM P htag eG tape p hG htape hbytes
  · rw [Encrypt_RSA_eq P eR hR tape (some p)]
    simp only [Decrypt_RSA_eq P eR hR]
    exact decryptRSA_encryptRSA P eR.passphrase tape p key hum hpriv hsize hps

/-- Witness for C3 at concrete inputs: a two-byte plaintext, a concrete
56-byte random tape, concrete engines for the three protocols, and the
concrete test primitives. -/
theorem C3_round_trip_witness :
    GoResult.bind (Encrypt testPrims ⟨[1, 2], none, CFB⟩ (List.replicate 56 1) (some [104, 105])).1
        (fun ct => Decrypt testPrims
          (Encrypt testPrims ⟨[1, 2], none, CFB⟩ (List.replicate 56 1) (some [104, 105])).2
          (some ct)) = .ok [104, 105]
    ∧ GoResult.bind (Encrypt testPrims ⟨[], none, GCM⟩ (List.replicate 56 1) (some [104, 105])).1
        (fun ct => Decrypt testPrims
          (Encrypt testPrims ⟨[], none, GCM⟩ (List.replicate 56 1) (some [104, 105])).2
          (some ct)) = .ok [104, 105]
    ∧ GoResult.bind (Encrypt testPrims ⟨[5], none, RSA⟩ (List.replicate 56 1) (some [104, 105])).1
        (fun ct => Decrypt testPrims
          (Encrypt testPrims ⟨[5], none, RSA⟩ (List.replicate 56 1) (some [104, 105])).2
          (some ct)) = .ok [104, 105] :=
  C3_round_trip testPrims (List.replicate 56 1) [104, 105]
    ⟨[], none, GCM⟩ ⟨[1, 2], none, CFB⟩ ⟨[5], none, RSA⟩ testRsaKeyPair
    testBlockEnc_length testKdf_length testTagF_length
    (by decide) (by decide) rfl rfl rfl rfl
    (fun em _ => by
      simp [testRsaKeyPair, List.map_map]
      exact List.map_id em)
    (by decide) (by decide)

/-- Claim C4: every successful CFB-mode encrypt of an input p returns a
byte sequence of length exactly 16 + len(p) + saltlength, laid out as
the 16-byte IV, then the len(p)-byte CFB ciphertext, then the 32-byte
salt appended at the end. -/
theorem C4_cfb_envelope (P : Primitives) (pass tape b out : List Nat)
    (hE : ∀ k x, (P.blockEnc k x).length = 16)
    (hok : encryptCFB P pass tape (some b) = .ok out) :
    out = (tape.drop 32).take 16
        ++ cfbEnc (P.blockEnc (P.kdf pass (tape.take 32))) ((tape.drop 32).take 16) b
        ++ tape.take 32
    ∧ out.length = 16 + b.length + saltlen
    ∧ out.take 16 = (tape.drop 32).take 16
    ∧ out.drop (16 + b.length) = tape.take 32 := by
  unfold encryptCFB at hok
  simp only [] at hok
  by_cases h32 : tape.length < 32
  · rw [if_pos h32] at hok
    simp at hok
  · rw [if_neg h32] at hok
    by_cases hkbad : ¬((P.kdf pass (tape.take 32)).length = 16
        ∨ (P.kdf pass (tape.take 32)).length = 24
        ∨ (P.kdf pass (tape.take 32)).length = 32)
    · rw [if_pos hkbad] at hok
      simp at hok
    · rw [if_neg hkbad] at hok
      by_cases h48 : tape.length < 48
      · rw [if_pos h48] at hok
        simp at hok
      · rw [if_neg h48] at hok
        simp only [GoResult.ok.injEq] at hok
        subst hok
        set iv := (tape.drop 32).take 16 with hivdef
        set salt := tape.take 32 with hsaltdef
        set ct := cfbEnc (P.blockEnc (P.kdf pass salt)) iv b with hctdef
        have hivlen : iv.length = 16 := by
          rw [hivdef, List.length_take, List.length_drop]
          omega
        have hsaltlen : salt.length = 32 := by
          rw [hsaltdef, List.length_take]
          omega
        have hctlen : ct.length = b.length :=
          cfbEnc_length _ (hE (P.kdf pass salt)) iv b
        refine ⟨rfl, ?_, ?_, ?_⟩
        · simp [List.length_append, hivlen, hsaltlen, hctlen, saltlen]
          omega
        · rw [List.append_assoc, show (16 : Nat) = iv.length from hivlen.symm,
            take_len_append]
        · rw [show 16 + b.length = (iv ++ ct).length by
            simp [List.length_append, hivlen, hctlen]]
          exact drop_len_append (iv ++ ct) salt

/-- Witness for C4 at concrete inputs: the test primitives, a two-byte
plaintext and a concrete 56-byte tape. -/
theorem C4_cfb_envelope_witness :
    (encryptCFB testPrims [] (List.replicate 56 2) (some [7, 8])).getD []
      = ((List.replicate 56 2).drop 32).take 16
        ++ cfbEnc (testPrims.blockEnc (testPrims.kdf [] ((List.replicate 56 2).take 32)))
            (((List.replicate 56 2).drop 32).take 16) [7, 8]
        ++ (List.replicate 56 2).take 32
    ∧ ((encryptCFB testPrims [] (List.replicate 56 2) (some [7, 8])).getD []).length
        = 16 + [7, 8].length + saltlen
    ∧ ((encryptCFB testPrims [] (List.replicate 56 2) (some [7, 8])).getD []).take 16
        = ((List.replicate 56 2).drop 32).take 16
    ∧ ((encryptCFB testPrims [] (List.replicate 56 2) (some [7, 8])).getD []).drop
          (16 + [7, 8].length)
        = (List.replicate 56 2).take 32 :=
  C4_cfb_envelope testPrims [] (List.replicate 56 2) [7, 8] _
    testBlockEnc_length (by decide)

/-- Claim C1, against the code as written: a CFB decrypt input shorter
than the IV plus salt length (48 bytes) makes decryptCFB fault with an
out-of-range slice panic; the function has no explicit boundary check
returning a malformed-input error. -/
theorem C1_decryptCFB_short_input_panics (P : Primitives) (pass raw : List Nat)
    (hkdf : ∀ pw s, (P.kdf pw s).length = 32)
    (hshort : raw.length < 48) :
    decryptCFB P pass (some raw) = .panic sliceBoundsPanic := by
  unfold decryptCFB
  simp only []
  by_cases h32 : raw.length < saltlen
  · rw [if_pos h32]
  · rw [if_neg h32]
    rw [if_neg (by simp [hkdf])]
    rw [if_pos (by
      simp only [List.length_take]
      unfold saltlen at *
      omega)]

/-- Witness for C1: the empty input makes decryptCFB panic under the
test primitives. -/
theorem C1_short_input_witness :
    decryptCFB testPrims [] (some []) = .panic sliceBoundsPanic :=
  C1_decryptCFB_short_input_panics testPrims [] [] testKdf_length (by decide)

/-- Counterexample to claim C2 as stated: with a validly deserialized
key pair of modulus size 32, encrypting a plaintext of exactly 32 bytes
does not succeed; it passes the engine size guard but the PKCS1v15
primitive rejects it as too long. -/
theorem C2_exact_size_counterexample :
    encryptRSA testPrims [] (List.replicate 40 1) (some (List.replicate 32 1))
      = .err msgTooLongErr := by
  decide

/-- Claim C2, amended: with a validly deserialized key pair, a
plaintext of length exactly the public modulus byte size passes the
engine size guard but is rejected inside EncryptPKCS1v15 with the
message-too-long error (PKCS1v15 needs 11 bytes of padding overhead,
so only plaintexts up to size minus 11 encrypt); a plaintext one byte
longer than the modulus byte size is rejected with the input-too-large
error before the PKCS1v15 primitive is invoked. -/
theorem C2_rsa_size_boundary (P : Primitives) (pass tape b1 b2 : List Nat)
    (key : RsaKeyPair) (hum : P.um pass = some key)
    (h1 : b1.length = key.size) (h2 : b2.length = key.size + 1) :
    encryptRSA P pass tape (some b1) = .err msgTooLongErr
    ∧ encryptRSA P pass tape (some b2) = .err tooLargeErr := by
  constructor
  · unfold encryptRSA
    simp only []
    rw [hum]
    simp only []
    rw [if_neg (by omega)]
    unfold encryptPKCS1v15
    rw [if_pos (by omega)]
  · unfold encryptRSA
    simp only []
    rw [hum]
    simp only []
    rw [if_pos (by omega)]

/-- Witness for the amended C2 at the test key pair of modulus size
32. -/
theorem C2_rsa_size_boundary_witness :
    encryptRSA testPrims [] [] (some (List.replicate 32 1)) = .err msgTooLongErr
    ∧ encryptRSA testPrims [] [] (some (List.replicate 33 1)) = .err tooLargeErr :=
  C2_rsa_size_boundary testPrims [] [] (List.replicate 32 1) (List.replicate 33 1)
    testRsaKeyPair rfl (by decide) (by decide)

/-- Claim C5: GCM-mode decryption fails with an error, producing no
plaintext, whenever the decrypt parameters are absent, whenever
hex-decoding of the key or the nonce fails, and whenever AEAD
authentication of the ciphertext fails. -/
theorem C5_decryptGCM_errors (P : Primitives) (p : GCMDecryptParams)
    (r : Option (List Nat)) :
    (∀ r2, decryptGCM P none r2 = .err paramsNullErr)
    ∧ (hexDecode p.CipherKey = none → decryptGCM P (some p) r = .err hexErr)
    ∧ (∀ k, hexDecode p.CipherKey = some k → hexDecode p.Nonce = none →
        decryptGCM P (some p) r = .err hexErr)
    ∧ (∀ k n ct, hexDecode p.CipherKey = some k → hexDecode p.Nonce = some n →
        (k.length = 16 ∨ k.length = 24 ∨ k.length = 32) →
        n.length = nonceSize → 16 ≤ ct.length →
        ct.drop (ct.length - 16) ≠ P.tagF k n (ct.take (ct.length - 16)) →
        decryptGCM P (some p) (some ct) = .err authFailedErr) := by
  refine ⟨fun r2 => rfl, ?_, ?_, ?_⟩
  · intro hk
    unfold decryptGCM
    simp only []
    rw [hk]
  · intro k hk hn
    unfold decryptGCM
    simp only []
    rw [hk]
    simp only []
    rw [hn]
  · intro k n ct hk hn hklen hnlen hctlen htag
    unfold decryptGCM
    simp only []
    rw [hk]
    simp only []
    rw [hn]
    simp only []
    rw [if_neg (not_not_intro hklen)]
    unfold gcmOpen
    rw [if_neg (not_not_intro hnlen)]
    rw [if_neg (by omega)]
    simp only []
    rw [if_neg htag]

/-- Witness for C5: each failure case exercised at concrete inputs
under the test primitives. -/
theorem C5_decryptGCM_errors_witness :
    decryptGCM testPrims none (some []) = .err paramsNullErr
    ∧ decryptGCM testPrims (some ⟨['z'], []⟩) (some []) = .err hexErr
    ∧ decryptGCM testPrims (some ⟨hexEncode (List.replicate 32 0), ['z']⟩) (some [])
        = .err hexErr
    ∧ decryptGCM testPrims
        (some ⟨hexEncode (List.replicate 32 0), hexEncode (List.replicate 24 0)⟩)
        (some (List.replicate 16 0)) = .err authFailedErr := by
  refine ⟨?_, ?_, ?_, ?_⟩
  · exact (C5_decryptGCM_errors testPrims ⟨['z'], []⟩ (some [])).1 (some [])
  · exact (C5_decryptGCM_errors testPrims ⟨['z'], []⟩ (some [])).2.1 (by decide)
  · exact (C5_decryptGCM_errors testPrims
        ⟨hexEncode (List.replicate 32 0), ['z']⟩ (some [])).2.2.1
      (List.replicate 32 0) (by decide) (by decide)
  · exact (C5_decryptGCM_errors testPrims
        ⟨hexEncode (List.replicate 32 0), hexEncode (List.replicate 24 0)⟩
        (some (List.replicate 16 0))).2.2.2
      (List.replicate 32 0) (List.replicate 24 0) (List.replicate 16 0)
      (by decide) (by decide) (by decide) (by decide) (by decide) (by decide)

/-- Claim C6: for every engine whose protocol is none of GCM, CFB and
RSA, including the empty protocol, Encrypt fails with the error message
"no protocol specified" leaving the engine unchanged, and Decrypt fails
with its configuration error; neither produces output. -/
theorem C6_unknown_protocol (P : Primitives) (e : EncryptManager)
    (tape : List Nat) (r : Option (List Nat))
    (hg : e.protocol ≠ GCM) (hc : e.protocol ≠ CFB) (hr : e.protocol ≠ RSA) :
    Encrypt P e tape r = (.err noProtocolErr, e)
    ∧ Decrypt P e r = .err invalidInvocationErr := by
  constructor
  · unfold Encrypt
    rw [if_neg hg, if_neg hc, if_neg hr]
  · unfold Decrypt
    rw [if_neg hc, if_neg hg, if_neg hg, if_neg hr]

/-- Witness for C6: the empty protocol string. -/
theorem C6_unknown_protocol_witness :
    Encrypt testPrims ⟨[], none, ""⟩ [] (some []) = (.err noProtocolErr, ⟨[], none, ""⟩)
    ∧ Decrypt testPrims ⟨[], none, ""⟩ (some []) = .err invalidInvocationErr :=
  C6_unknown_protocol testPrims ⟨[], none, ""⟩ [] (some [])
    (by decide) (by decide) (by decide)

/-- Claim C7: after a successful GCM-mode Encrypt the engine stores the
hex encodings of the freshly drawn key and nonce; a subsequent
RetrieveGCMDecryptionParameters returns the formatted nonce/key text
encrypted under the CFB handler with the engine passphrase; and
RetrieveGCMDecryptionParameters fails with an error when no parameters
are stored. -/
theorem C7_gcm_params (P : Primitives) (e : EncryptManager)
    (tape tape2 p pass : List Nat) (prm : GCMDecryptParams)
    (hproto : e.protocol = GCM) (htape : 56 ≤ tape.length) :
    (Encrypt P e tape (some p)).2.gcmDecryptParams
      = some ⟨hexEncode (tape.take 32), hexEncode ((tape.drop 32).take 24)⟩
    ∧ RetrieveGCMDecryptionParameters P ⟨pass, some prm, GCM⟩ tape2
        = encryptCFB P pass tape2 (some (formatParams prm))
    ∧ RetrieveGCMDecryptionParameters P ⟨pass, none, GCM⟩ tape2 = .err paramsEmptyErr := by
  refine ⟨?_, rfl, rfl⟩
  unfold Encrypt
  rw [if_pos hproto, encryptGCM_ok P tape p htape]

/-- Witness for C7 at concrete inputs. -/
theorem C7_gcm_params_witness :
    (Encrypt testPrims ⟨[3], none, GCM⟩ (List.replicate 56 4) (some [9])).2.gcmDecryptParams
      = some ⟨hexEncode ((List.replicate 56 4).take 32),
              hexEncode (((List.replicate 56 4).drop 32).take 24)⟩
    ∧ RetrieveGCMDecryptionParameters testPrims ⟨[3], (some ⟨['a'], ['b']⟩), GCM⟩
          (List.replicate 48 1)
        = encryptCFB testPrims [3] (List.replicate 48 1)
            (some (formatParams ⟨['a'], ['b']⟩))
    ∧ RetrieveGCMDecryptionParameters testPrims ⟨[3], none, GCM⟩ (List.replicate 48 1)
        = .err paramsEmptyErr :=
  C7_gcm_params testPrims ⟨[3], none, GCM⟩ (List.replicate 56 4) (List.replicate 48 1)
    [9] [3] ⟨['a'], ['b']⟩ rfl (by decide)

/-- Claim C9: the Decrypt dispatch with its duplicate second GCM case
is behaviorally equal, on every engine state and input, to a dispatch
with a single GCM branch calling decryptGCM; the second GCM branch is
dead code, and decryptGCM itself already requires a non-nil parameter
record on top of the protocol tag. -/
theorem C9_duplicate_gcm_branch (P : Primitives) (e : EncryptManager)
    (r : Option (List Nat)) :
    Decrypt P e r = DecryptSingleGCM P e r
    ∧ (∀ r2, decryptGCM P none r2 = .err paramsNullErr) := by
  constructor
  · unfold Decrypt DecryptSingleGCM
    by_cases h1 : e.protocol = CFB
    · rw [if_pos h1, if_pos h1]
    · rw [if_neg h1, if_neg h1]
      by_cases h2 : e.protocol = GCM
      · rw [if_pos h2, if_pos h2]
      · simp only [if_neg h2]
  · intro r2
    rfl

/-- Claim C10: with any of the three protocols configured, Encrypt on a
nil reader returns the invalid-content error and leaves the engine
unchanged; decryptCFB and decryptRSA guard a nil reader the same way;
the GCM decrypt path has no such guard and, once its parameters are
well formed, dereferences the nil reader and panics. -/
theorem C10_nil_reader (P : Primitives) (e : EncryptManager) (tape pass : List Nat)
    (p : GCMDecryptParams) (k n : List Nat)
    (hproto : e.protocol = GCM ∨ e.protocol = CFB ∨ e.protocol = RSA)
    (hk : hexDecode p.CipherKey = some k) (hn : hexDecode p.Nonce = some n)
    (hklen : k.length = 16 ∨ k.length = 24 ∨ k.length = 32) :
    Encrypt P e tape none = (.err invalidContentErr, e)
    ∧ decryptCFB P pass none = .err invalidContentErr
    ∧ decryptRSA P pass none = .err invalidContentErr
    ∧ decryptGCM P (some p) none = .panic nilDerefPanic := by
  refine ⟨?_, rfl, rfl, ?_⟩
  · rcases hproto with h | h | h
    · unfold Encrypt
      rw [if_pos h]
      rfl
    · rw [Encrypt_CFB_eq P e h tape none]
      rfl
    · rw [Encrypt_RSA_eq P e h tape none]
      rfl
  · unfold decryptGCM
    simp only []
    rw [hk]
    simp only []
    rw [hn]
    simp only []
    rw [if_neg (not_not_intro hklen)]

/-- Witness for C10 at concrete inputs. -/
theorem C10_nil_reader_witness :
    Encrypt testPrims ⟨[], none, GCM⟩ [] none = (.err invalidContentErr, ⟨[], none, GCM⟩)
    ∧ decryptCFB testPrims [] none = .err invalidContentErr
    ∧ decryptRSA testPrims [] none = .err invalidContentErr
    ∧ decryptGCM testPrims
        (some ⟨hexEncode (List.replicate 32 0), hexEncode (List.replicate 24 0)⟩) none
        = .panic nilDerefPanic :=
  C10_nil_reader testPrims ⟨[], none, GCM⟩ [] []
    ⟨hexEncode (List.replicate 32 0), hexEncode (List.replicate 24 0)⟩
    (List.replicate 32 0) (List.replicate 24 0)
    (Or.inl rfl) (by decide) (by decide) (by decide)

/-- Counterexample to claim C8 as stated: two GCM encrypt calls on the
same plaintext whose random inputs differ (only in the 32 key bytes)
draw the same nonce, so key, nonce and ciphertext do not all differ.
The result tuple of encryptGCM is (ciphertext, nonce, key). -/
theorem C8_same_nonce_counterexample :
    (List.replicate 32 1 ++ List.replicate 24 5)
      ≠ (List.replicate 32 2 ++ List.replicate 24 5)
    ∧ ¬ (((encryptGCM testPrims (List.replicate 32 1 ++ List.replicate 24 5)
            (some [1])).getD ([], [], [])).2.2
          ≠ ((encryptGCM testPrims (List.replicate 32 2 ++ List.replicate 24 5)
            (some [1])).getD ([], [], [])).2.2
        ∧ ((encryptGCM testPrims (List.replicate 32 1 ++ List.replicate 24 5)
            (some [1])).getD ([], [], [])).2.1
          ≠ ((encryptGCM testPrims (List.replicate 32 2 ++ List.replicate 24 5)
            (some [1])).getD ([], [], [])).2.1
        ∧ ((encryptGCM testPrims (List.replicate 32 1 ++ List.replicate 24 5)
            (some [1])).getD ([], [], [])).1
          ≠ ((encryptGCM testPrims (List.replicate 32 2 ++ List.replicate 24 5)
            (some [1])).getD ([], [], [])).1) := by
  decide

/-- Claim C8, amended: each GCM encrypt call draws its 32-byte key and
24-byte nonce directly from the random source, so two calls on the
same plaintext whose 32-byte key draws differ produce different keys,
and two calls whose 24-byte nonce draws differ produce different
nonces; a key or nonce is therefore never reused across calls whose
corresponding draws differ.  Whether the ciphertexts differ depends on
the external AES-GCM primitive, not on this code. -/
theorem C8_fresh_key_nonce (P : Primitives) (tape1 tape2 p : List Nat)
    (h1 : 56 ≤ tape1.length) (h2 : 56 ≤ tape2.length)
    (hkdiff : tape1.take 32 ≠ tape2.take 32) :
    ((encryptGCM P tape1 (some p)).getD ([], [], [])).2.2 = tape1.take 32
    ∧ ((encryptGCM P tape2 (some p)).getD ([], [], [])).2.2 = tape2.take 32
    ∧ ((encryptGCM P tape1 (some p)).getD ([], [], [])).2.1 = (tape1.drop 32).take 24
    ∧ ((encryptGCM P tape2 (some p)).getD ([], [], [])).2.1 = (tape2.drop 32).take 24
    ∧ ((encryptGCM P tape1 (some p)).getD ([], [], [])).2.2
        ≠ ((encryptGCM P tape2 (some p)).getD ([], [], [])).2.2
    ∧ ((tape1.drop 32).take 24 ≠ (tape2.drop 32).take 24 →
        ((encryptGCM P tape1 (some p)).getD ([], [], [])).2.1
          ≠ ((encryptGCM P tape2 (some p)).getD ([], [], [])).2.1) := by
  rw [encryptGCM_ok P tape1 p h1, encryptGCM_ok P tape2 p h2]
  exact ⟨rfl, rfl, rfl, rfl, hkdiff, fun h => h⟩

/-- Witness for the amended C8 at two concrete tapes whose key and
nonce draws both differ. -/
theorem C8_fresh_key_nonce_witness :
    ((encryptGCM testPrims (List.replicate 56 1) (some [1])).getD ([], [], [])).2.2
      = (List.replicate 56 1).take 32
    ∧ ((encryptGCM testPrims (List.replicate 56 2) (some [1])).getD ([], [], [])).2.2
      = (List.replicate 56 2).take 32
    ∧ ((encryptGCM testPrims (List.replicate 56 1) (some [1])).getD ([], [], [])).2.1
      = ((List.replicate 56 1).drop 32).take 24
    ∧ ((encryptGCM testPrims (List.replicate 56 2) (some [1])).getD ([], [], [])).2.1
      = ((List.replicate 56 2).drop 32).take 24
    ∧ ((encryptGCM testPrims (List.replicate 56 1) (some [1])).getD ([], [], [])).2.2
      ≠ ((encryptGCM testPrims (List.replicate 56 2) (some [1])).getD ([], [], [])).2.2
    ∧ (((List.replicate 56 1).drop 32).take 24 ≠ ((List.replicate 56 2).drop 32).take 24 →
        ((encryptGCM testPrims (List.replicate 56 1) (some [1])).getD ([], [], [])).2.1
          ≠ ((encryptGCM testPrims (List.replicate 56 2) (some [1])).getD ([], [], [])).2.1) :=
  C8_fresh_key_nonce testPrims (List.replicate 56 1) (List.replicate 56 2) [1]
    (by decide) (by decide) (by decide)
